import Mathlib

/-!
Verification of the slide-video builder (`swiggy_video_maker.py`).

The Python source is shallowly embedded below.  Python strings are modelled
as `List Char` (`Str`), Python floats appearing in timing/geometry as `ℚ`,
and Python `int(...)` truncation as `Int.tdiv` of a rational's numerator by
its denominator.  External libraries are modelled by the data they
contribute to the computation:

* `PIL.Image.open` / image decoding — an `Option Img` argument (decoding
  may fail);
* `draw.textsize` — an abstract width function `Str → ℕ`;
* MoviePy clips — records of the geometric/timing data the script sets on
  them.  `CompositeVideoClip(clips)` layers every clip at its `start`
  attribute, which the script never sets, so each layered clip starts at
  time 0; `set_duration` overrides the total duration.
-/

namespace VideoMaker

abbrev Str := List Char

def str (s : String) : Str := s.toList

/-- Python whitespace test used by `str.split` / `str.strip`. -/
def isWs (c : Char) : Bool := c.isWhitespace

/-- Python `str.lower()`. -/
def pyLower (s : Str) : Str := s.map Char.toLower

/-- Python `str.upper()`. -/
def pyUpper (s : Str) : Str := s.map Char.toUpper

def stripEnd (s : Str) : Str := (s.reverse.dropWhile isWs).reverse

/-- Python `str.strip()`: drop leading and trailing whitespace. -/
def pyStrip (s : Str) : Str := stripEnd (s.dropWhile isWs)

def pysplitAux : Str → Str → List Str
  | [], acc => if acc = [] then [] else [acc.reverse]
  | c :: cs, acc =>
    if isWs c then
      if acc = [] then pysplitAux cs []
      else acc.reverse :: pysplitAux cs []
    else pysplitAux cs (c :: acc)

/-- Python `str.split()` with no argument: split on whitespace runs,
dropping empty tokens. -/
def pysplit (s : Str) : List Str := pysplitAux s []

/-- Python `" ".join(ws)`. -/
def joinSp : List Str → Str
  | [] => []
  | [w] => w
  | w :: x :: ws => w ++ ' ' :: joinSp (x :: ws)

def isPrefixSeq : Str → Str → Bool
  | [], _ => true
  | _ :: _, [] => false
  | a :: as, b :: bs => a = b && isPrefixSeq as bs

/-- Python substring test `needle in hay`. -/
def containsSeq (needle : Str) : Str → Bool
  | [] => isPrefixSeq needle []
  | hay@(_ :: rest) => isPrefixSeq needle hay || containsSeq needle rest

/-- Python `int(q)` on a nonnegative-or-negative rational: truncation
toward zero. -/
def pyInt (q : ℚ) : ℤ := q.num.tdiv q.den

/-- The configuration fields of `config.yaml` that the modelled code
reads.  `left_panel_frac` is the source's `left_panel_ratio` key. -/
structure Cfg where
  frame_width : ℕ
  frame_height : ℕ
  left_panel_frac : ℚ
  duration_per_slide : ℚ
  max_slides : ℕ
  edge_padding_px : ℕ
  safe_area_inset_px : ℕ
  logo_margin_px : ℕ
  logo_position : Str
  title_case_style : Str
  text_max_words_per_bullet : ℕ
  barcode_filename_keywords : List Str

/-- One spreadsheet row, with each referenced cell already converted by
`str(row.get(col, ""))` (an absent field is the empty string). -/
structure Row where
  skip : Str
  image_filename : Str
  title : Str
  bullets : List Str
deriving DecidableEq

/-- An in-memory RGBA bitmap: size, dominant fill colour, and the text
label drawn on it (if any). -/
structure Img where
  w : ℕ
  h : ℕ
  fill : ℕ × ℕ × ℕ × ℕ
  label : Option Str
deriving DecidableEq

/-- `clamp_words` (line 66): `" ".join((s or "").split()[:max_words])`. -/
def clamp_words (s : Str) (max_words : ℕ) : Str :=
  joinSp ((pysplit s).take max_words)

/-- `apply_title_case` (line 58). -/
def apply_title_case (s : Str) (style : Str) : Str :=
  let s := pyStrip s
  if style = str "upper" then pyUpper s
  else if style = str "sentence" then
    match s with
    | [] => []
    | c :: cs => Char.toUpper c :: cs
  else s

/-- The loop body of `wrap_text` (lines 118-133).  `cur` is the current
line; a word is appended when the rendered width of
`test = (cur + " " + w).strip()` is at most `max_w - pad*2`. -/
def wrapAux (width : Str → ℕ) (max_w : ℤ) (pad : ℕ) : List Str → Str → List Str
  | [], cur => if cur = [] then [] else [cur]
  | w :: ws, cur =>
    let test := pyStrip (cur ++ ' ' :: w)
    if (width test : ℤ) ≤ max_w - pad * 2 then wrapAux width max_w pad ws test
    else if cur = [] then wrapAux width max_w pad ws w
    else cur :: wrapAux width max_w pad ws w

/-- `wrap_text(txt, font, max_w)` (line 118), with the font and
`draw.textsize` abstracted into `width` and the captured `pad`
made explicit. -/
def wrap_text (width : Str → ℕ) (txt : Str) (max_w : ℤ) (pad : ℕ) : List Str :=
  wrapAux width max_w pad (pysplit txt) []

/-- The text panel produced by `render_text_panel`: its canvas size and
the text lines laid out on it. -/
structure TextPanel where
  panel_w : ℤ
  panel_h : ℕ
  title_lines : List Str
  bullet_texts : List Str

/-- `render_text_panel` (lines 95-157): `panel_w = int(W * left_ratio)`,
`panel_h = H`; the title is case-transformed then wrapped with
`wrap_text(title, title_font, panel_w - 2*pad)`; each truthy bullet is
clamped to `text_max_words_per_bullet` words. -/
def render_text_panel (width : Str → ℕ) (text_title : Str) (bullets : List Str)
    (cfg : Cfg) : TextPanel :=
  let panel_w : ℤ := pyInt ((cfg.frame_width : ℚ) * cfg.left_panel_frac)
  let pad := cfg.edge_padding_px
  let title := apply_title_case text_title cfg.title_case_style
  { panel_w := panel_w
    panel_h := cfg.frame_height
    title_lines := wrap_text width title (panel_w - 2 * pad) pad
    bullet_texts :=
      (bullets.filter (fun b => b ≠ [])).map
        (fun b => clamp_words b cfg.text_max_words_per_bullet) }

/-- A logo bitmap placed on a frame: its (possibly resized) size and
top-left position. -/
structure LogoLayer where
  w : ℤ
  h : ℤ
  x : ℤ
  y : ℤ
deriving DecidableEq

/-- `paste_logo` (lines 159-171): `scale = min(1.0, (W*0.18)/lw)`; resize
when `scale != 1.0`; `x = W - lw - margin` for `top_right`, else
`margin`; `y = margin`. -/
def paste_logo (W _H lw lh : ℕ) (margin : ℕ) (pos : Str) : LogoLayer :=
  let scale : ℚ := min 1 ((W : ℚ) * (9 / 50) / lw)
  let lw' : ℤ := if scale = 1 then lw else pyInt (lw * scale)
  let lh' : ℤ := if scale = 1 then lh else pyInt (lh * scale)
  { w := lw'
    h := lh'
    x := if pos = str "top_right" then (W : ℤ) - lw' - margin else (margin : ℤ)
    y := (margin : ℤ) }

/-- `ease_out_cubic` (lines 264-267) at the default window `d = 0.6`. -/
def ease_out_cubic (t : ℚ) : ℚ :=
  if t ≥ 3 / 5 then 1
  else
    let p := t / (3 / 5) - 1
    p * p * p + 1

/-- The product image substitution of `build_slide_clip` (lines 204-210):
on decode failure a neutral-gray 800x800 placeholder labelled
`"Missing image:\n" + name` is used. -/
def load_product_image (decoded : Option Img) (img_name : Str) : Img :=
  match decoded with
  | some im => im
  | none =>
    { w := 800, h := 800, fill := (230, 230, 230, 255)
      label := some (str "Missing image:\n" ++ img_name) }

/-- The data of one slide clip that `build_slide_clip` returns: its
duration, panel, right-pane geometry, the product image actually used,
and the static logo overlay layered into the final composite
(lines 287-289: the original `logo_rgba`, positioned at
`(W - logo_rgba.size[0] - logo_margin_px, logo_margin_px)`). -/
structure SlideClip where
  duration : ℚ
  panel : TextPanel
  avail_w : ℤ
  avail_h : ℤ
  product : Img
  logo_overlay : Option LogoLayer

/-- `build_slide_clip` (lines 190-292).  `decoded` is the result of
`Image.open(img_path)` (`none` on failure), `logo` the original logo
bitmap size (`logo_rgba.size`). -/
def build_slide_clip (width : Str → ℕ) (decoded : Option Img) (img_name : Str)
    (title : Str) (bullets : List Str) (cfg : Cfg) (logo : Option (ℕ × ℕ)) :
    SlideClip :=
  let W := cfg.frame_width
  let panel := render_text_panel width title bullets cfg
  let im := load_product_image decoded img_name
  let avail_w : ℤ := (W : ℤ) - panel.panel_w - cfg.safe_area_inset_px * 2
  let avail_h : ℤ := (cfg.frame_height : ℤ) - cfg.safe_area_inset_px * 2
  { duration := cfg.duration_per_slide
    panel := panel
    avail_w := avail_w
    avail_h := avail_h
    product := im
    logo_overlay :=
      logo.map fun lsz =>
        { w := (lsz.1 : ℤ), h := (lsz.2 : ℤ)
          x := (W : ℤ) - lsz.1 - cfg.logo_margin_px
          y := (cfg.logo_margin_px : ℤ) } }

/-- The skip test of the main loop (line 328):
`str(row.get(skip_col, "")).strip().lower() in {"1","true","yes","y"}`. -/
def is_skip_flag (v : Str) : Bool :=
  decide (pyLower (pyStrip v) ∈ [str "1", str "true", str "yes", str "y"])

/-- The barcode-filename test of the main loop (line 335):
`any(k in lowered for k in cfg.get("barcode_filename_keywords", []))`. -/
def has_barcode_keyword (keywords : List Str) (lowered : Str) : Bool :=
  keywords.any (fun k => containsSeq k lowered)

/-- The row-filtering loop of `main` (lines 324-337): stop at
`max_slides` selected rows; skip rows with a truthy skip flag, an empty
(stripped) image reference, or a barcode-keyword filename. -/
def select_rows (cfg : Cfg) : List Row → ℕ → List Row
  | [], _ => []
  | row :: rest, count =>
    if cfg.max_slides ≤ count then []
    else if is_skip_flag row.skip then select_rows cfg rest count
    else if pyStrip row.image_filename = [] then select_rows cfg rest count
    else if has_barcode_keyword cfg.barcode_filename_keywords
        (pyLower (pyStrip row.image_filename)) then select_rows cfg rest count
    else row :: select_rows cfg rest (count + 1)

/-- The assembled video timeline: per-slide `(start, stop)` spans inside
the final video and the total duration. -/
structure Timeline where
  slide_spans : List (ℚ × ℚ)
  total_duration : ℚ

/-- Line 381: `video = CompositeVideoClip(slides).set_duration(per*len(slides))`.
`CompositeVideoClip` layers each clip at its `start` attribute; the script
never calls `set_start`, so every slide clip is layered at time 0 and runs
for its own duration, while `set_duration` sets the total duration to
`per * len(slides)`. -/
def composite_timeline (per : ℚ) (slides : List SlideClip) : Timeline :=
  { slide_spans := slides.map (fun s => ((0 : ℚ), s.duration))
    total_duration := per * slides.length }

/-- The audio track attached to the video, as configured by lines
384-392: loop count, duration after whole-track concatenation, duration
after `subclip(0, video.duration)`, and the `volumex` gain. -/
structure MusicTrack where
  loops : ℕ
  looped_duration : ℚ
  duration : ℚ
  volume : ℚ
deriving DecidableEq

/-- Lines 384-392: when the track is shorter than the video it is
concatenated `ceil(video.duration / audio.duration)` times, then
`subclip(0, video.duration)` trims it and `volumex(0.9)` attenuates. -/
def attach_music (audio_duration video_duration : ℚ) : MusicTrack :=
  if audio_duration < video_duration then
    let loops : ℤ := ⌈video_duration / audio_duration⌉
    { loops := loops.toNat
      looped_duration := loops * audio_duration
      duration := video_duration
      volume := 9 / 10 }
  else
    { loops := 1
      looped_duration := audio_duration
      duration := video_duration
      volume := 9 / 10 }

/-- The run's output: the assembled timeline and the optional music
track. -/
structure RunOutput where
  timeline : Timeline
  music : Option MusicTrack

/-- `main` (lines 294-412) after config/font/logo/data loading: filter
rows, fail with exit code 1 when none survive, otherwise build the
slide clips, the composite timeline and the optional audio.  `decode`
models `Image.open` on each image path, `music` the duration of the
configured music file when one exists. -/
def main_run (width : Str → ℕ) (cfg : Cfg) (rows : List Row)
    (decode : Str → Option Img) (logo : Option (ℕ × ℕ)) (music : Option ℚ) :
    Except (Str × ℕ) RunOutput :=
  let selected := select_rows cfg rows 0
  if selected = [] then
    .error (str "No slides to render. Check your Excel and image paths.", 1)
  else
    let slides := selected.map fun r =>
      build_slide_clip width (decode (pyStrip r.image_filename))
        (pyStrip r.image_filename) (pyStrip r.title)
        ((r.bullets.map pyStrip).filter (fun b => b ≠ [])) cfg logo
    let tl := composite_timeline cfg.duration_per_slide slides
    .ok { timeline := tl
          music := music.map fun a => attach_music a tl.total_duration }

/-- The word-wrap algorithm exactly as the specification words it: append
the next word to the current line when the rendered width of the extended
line stays within the limit, otherwise flush the current line and start a
new one with that word.  The current line is kept as its list of words. -/
def greedyWrap (width : Str → ℕ) (limit : ℤ) : List Str → List Str → List (List Str)
  | [], curLine => if curLine = [] then [] else [curLine]
  | w :: ws, curLine =>
    if (width (joinSp (curLine ++ [w])) : ℤ) ≤ limit then
      greedyWrap width limit ws (curLine ++ [w])
    else if curLine = [] then greedyWrap width limit ws [w]
    else curLine :: greedyWrap width limit ws [w]

/-- Spec-worded wrapping of a text at a width limit, as line strings. -/
def greedyWrapLines (width : Str → ℕ) (limit : ℤ) (txt : Str) : List Str :=
  (greedyWrap width limit (pysplit txt) []).map joinSp

/-! ## Concrete fixtures (the streamlit front end's default configuration) -/

def wlen : Str → ℕ := fun s => s.length

def cfg1 : Cfg :=
  { frame_width := 1920, frame_height := 960, left_panel_frac := 1/2
    duration_per_slide := 5, max_slides := 5, edge_padding_px := 48
    safe_area_inset_px := 48, logo_margin_px := 28
    logo_position := str "top_right", title_case_style := str "standard"
    text_max_words_per_bullet := 4
    barcode_filename_keywords := [str "barcode", str "qr", str "code128"] }

def row_a : Row :=
  { skip := [], image_filename := str "widget.png", title := str "Widget"
    bullets := [str "Fresh"] }

def row_b : Row :=
  { skip := [], image_filename := str "gadget.png", title := str "Gadget"
    bullets := [] }

def img0 : Img := { w := 800, h := 800, fill := (0, 0, 0, 255), label := none }

def dec1 : Str → Option Img := fun _ => some img0

/-- A 1000-pixel-wide frame with a 7/16 split ratio: `W * r = 437.5`, on
which truncation (437) and rounding (438) disagree. -/
def cfg2 : Cfg := { cfg1 with frame_width := 1000, left_panel_frac := 7/16 }

/-- The default configuration but with the logo corner configured as
`top_left`. -/
def cfg3 : Cfg := { cfg1 with logo_position := str "top_left" }

/-- A 24-pixel-wide frame with ratio 1/2 and 1-pixel edge padding: the
panel is 12 wide, so the spec's wrap threshold is 10 while the code's
effective threshold is 8. -/
def cfgWrap : Cfg :=
  { cfg1 with frame_width := 24, left_panel_frac := 1/2, edge_padding_px := 1 }

/-- A single row whose skip flag is truthy, so that no slides survive. -/
def row_skip : Row :=
  { skip := str "yes", image_filename := str "widget.png"
    title := str "Widget", bullets := [] }

/-- A word as produced by Python `str.split()`: nonempty and free of
whitespace. -/
def goodWord (w : Str) : Prop := w ≠ [] ∧ ∀ c ∈ w, isWs c = false

/-! ## Helper lemmas -/

lemma pyInt_eq_floor (q : ℚ) (hq : 0 ≤ q) : pyInt q = ⌊q⌋ := by
  rw [Rat.floor_def]
  exact Int.tdiv_eq_ediv (Rat.num_nonneg.mpr hq) (Int.natCast_nonneg _)

lemma isPrefixSeq_refl (l : Str) : isPrefixSeq l l = true := by
  induction l with
  | nil => rfl
  | cons c cs ih => simp [isPrefixSeq, ih]

lemma containsSeq_append_self (p n : Str) : containsSeq n (p ++ n) = true := by
  induction p with
  | nil =>
    cases n with
    | nil => rfl
    | cons c cs => simp [containsSeq, isPrefixSeq_refl]
  | cons c p ih => simp [containsSeq, ih]

lemma pysplitAux_good :
    ∀ (l acc : Str), (∀ c ∈ acc, isWs c = false) →
      ∀ w ∈ pysplitAux l acc, goodWord w := by
  intro l
  induction l with
  | nil =>
    intro acc hacc w hw
    by_cases h : acc = []
    · simp [pysplitAux, h] at hw
    · rw [pysplitAux, if_neg h] at hw
      rcases List.mem_singleton.mp hw with rfl
      refine ⟨by simpa using h, ?_⟩
      intro c hc
      exact hacc c (List.mem_reverse.mp hc)
  | cons c cs ih =>
    intro acc hacc w hw
    rw [pysplitAux] at hw
    by_cases hc : isWs c = true
    · rw [if_pos hc] at hw
      by_cases h : acc = []
      · rw [if_pos h] at hw
        exact ih [] (by simp) w hw
      · rw [if_neg h] at hw
        rcases List.mem_cons.mp hw with rfl | hw'
        · exact ⟨by simpa using h, fun d hd => hacc d (List.mem_reverse.mp hd)⟩
        · exact ih [] (by simp) w hw'
    · rw [if_neg hc] at hw
      refine ih (c :: acc) ?_ w hw
      intro d hd
      rcases List.mem_cons.mp hd with rfl | hd'
      · simpa using hc
      · exact hacc d hd'

lemma pysplit_good (s : Str) : ∀ w ∈ pysplit s, goodWord w :=
  pysplitAux_good s [] (by simp)

lemma pysplitAux_append :
    ∀ (w : Str), (∀ c ∈ w, isWs c = false) →
      ∀ (rest acc : Str),
        pysplitAux (w ++ rest) acc = pysplitAux rest (w.reverse ++ acc) := by
  intro w
  induction w with
  | nil => intro _ rest acc; simp
  | cons c cs ih =>
    intro hw rest acc
    have hc : isWs c = false := hw c (List.mem_cons_self c cs)
    rw [List.cons_append, pysplitAux, if_neg (by simp [hc]),
      ih (fun d hd => hw d (List.mem_cons_of_mem c hd)) rest (c :: acc)]
    simp

lemma pysplit_joinSp :
    ∀ (ws : List Str), (∀ w ∈ ws, goodWord w) → pysplit (joinSp ws) = ws := by
  intro ws
  induction ws with
  | nil => intro _; rfl
  | cons w tail ih =>
    intro h
    have hw := h w (List.mem_cons_self w tail)
    cases tail with
    | nil =>
      show pysplit (joinSp [w]) = [w]
      have h1 : joinSp [w] = w := rfl
      rw [h1]
      unfold pysplit
      have h2 := pysplitAux_append w hw.2 [] []
      rw [List.append_nil] at h2
      rw [h2, pysplitAux, List.append_nil,
        if_neg (by simpa using hw.1)]
      simp
    | cons x ts =>
      show pysplit (w ++ ' ' :: joinSp (x :: ts)) = w :: x :: ts
      unfold pysplit
      rw [pysplitAux_append w hw.2, pysplitAux,
        if_pos (by decide : isWs ' ' = true), List.append_nil,
        if_neg (by simpa using hw.1)]
      rw [List.reverse_reverse]
      rw [show pysplitAux (joinSp (x :: ts)) [] = pysplit (joinSp (x :: ts)) from rfl,
        ih (fun u hu => h u (List.mem_cons_of_mem w hu))]

lemma dropWhile_cons_self {c : Char} {xs : Str} (h : isWs c = false) :
    (c :: xs).dropWhile isWs = c :: xs := by
  simp [List.dropWhile_cons, h]

lemma strip_eq_self {l : Str} (h1 : l.dropWhile isWs = l)
    (h2 : l.reverse.dropWhile isWs = l.reverse) : pyStrip l = l := by
  simp [pyStrip, stripEnd, h1, h2]

lemma rev_head_good {w : Str} (hgood : goodWord w) :
    ∃ d ds, w.reverse = d :: ds ∧ isWs d = false := by
  cases hr : w.reverse with
  | nil => exact absurd (List.reverse_eq_nil_iff.mp hr) hgood.1
  | cons d ds =>
    refine ⟨d, ds, rfl, hgood.2 d ?_⟩
    rw [← List.mem_reverse, hr]
    exact List.mem_cons_self d ds

lemma good_strip {w : Str} (hgood : goodWord w) : pyStrip w = w := by
  obtain ⟨d, ds, hr, hd⟩ := rev_head_good hgood
  cases w with
  | nil => exact absurd rfl hgood.1
  | cons c cs =>
    apply strip_eq_self
    · exact dropWhile_cons_self (hgood.2 c (List.mem_cons_self c cs))
    · rw [hr]
      exact dropWhile_cons_self hd

lemma strip_space_good {w : Str} (hgood : goodWord w) : pyStrip (' ' :: w) = w := by
  have hsp : isWs ' ' = true := by decide
  have h0 : pyStrip (' ' :: w) = pyStrip w := by
    simp [pyStrip, List.dropWhile_cons, hsp]
  rw [h0]
  exact good_strip hgood

lemma joinSp_head (cur : List Str) (hcur : ∀ u ∈ cur, goodWord u)
    (hne : cur ≠ []) : ∃ c r, joinSp cur = c :: r ∧ isWs c = false := by
  cases cur with
  | nil => exact absurd rfl hne
  | cons w tail =>
    have hw := hcur w (List.mem_cons_self w tail)
    cases hww : w with
    | nil => exact absurd hww hw.1
    | cons c cs =>
      have hc : isWs c = false := hw.2 c (by rw [hww]; exact List.mem_cons_self c cs)
      cases tail with
      | nil => exact ⟨c, cs, rfl, hc⟩
      | cons x ts =>
        exact ⟨c, cs ++ ' ' :: joinSp (x :: ts), rfl, hc⟩

lemma joinSp_append_single :
    ∀ (cur : List Str) (w : Str), cur ≠ [] →
      joinSp (cur ++ [w]) = joinSp cur ++ ' ' :: w := by
  intro cur
  induction cur with
  | nil => intro w h; exact absurd rfl h
  | cons u tail ih =>
    intro w _
    cases tail with
    | nil => rfl
    | cons x ts =>
      rw [show (u :: x :: ts) ++ [w] = u :: ((x :: ts) ++ [w]) from rfl,
        show joinSp (u :: ((x :: ts) ++ [w]))
          = u ++ ' ' :: joinSp ((x :: ts) ++ [w]) from rfl,
        ih w (by simp),
        show joinSp (u :: x :: ts) = u ++ ' ' :: joinSp (x :: ts) from rfl]
      simp

lemma joinSp_eq_nil_iff (cur : List Str) (hcur : ∀ u ∈ cur, goodWord u) :
    joinSp cur = [] ↔ cur = [] := by
  constructor
  · intro h
    by_contra hne
    obtain ⟨c, r, hc, _⟩ := joinSp_head cur hcur hne
    rw [hc] at h
    exact List.cons_ne_nil c r h
  · intro h
    subst h
    rfl

lemma strip_test_eq (cur : List Str) (w : Str) (hcur : ∀ u ∈ cur, goodWord u)
    (hw : goodWord w) :
    pyStrip (joinSp cur ++ ' ' :: w) = joinSp (cur ++ [w]) := by
  by_cases h : cur = []
  · subst h
    rw [show joinSp ([] : List Str) = [] from rfl, List.nil_append]
    exact strip_space_good hw
  · rw [joinSp_append_single cur w h]
    obtain ⟨c, r, hc, hcgood⟩ := joinSp_head cur hcur h
    obtain ⟨d, ds, hd, hdgood⟩ := rev_head_good hw
    apply strip_eq_self
    · rw [hc, List.cons_append]
      exact dropWhile_cons_self hcgood
    · have hrev : (joinSp cur ++ ' ' :: w).reverse
          = d :: (ds ++ ' ' :: (joinSp cur).reverse) := by
        rw [List.reverse_append]
        simp [hd]
      rw [hrev]
      exact dropWhile_cons_self hdgood

lemma wrapAux_eq_greedy (width : Str → ℕ) (max_w : ℤ) (pad : ℕ) :
    ∀ (ws : List Str) (cur : List Str),
      (∀ w ∈ ws, goodWord w) → (∀ u ∈ cur, goodWord u) →
      wrapAux width max_w pad ws (joinSp cur)
        = (greedyWrap width (max_w - pad * 2) ws cur).map joinSp := by
  intro ws
  induction ws with
  | nil =>
    intro cur _ hcur
    simp only [wrapAux, greedyWrap]
    by_cases h : cur = []
    · rw [if_pos ((joinSp_eq_nil_iff cur hcur).mpr h), if_pos h]
      rfl
    · rw [if_neg (fun hh => h ((joinSp_eq_nil_iff cur hcur).mp hh)), if_neg h]
      rfl
  | cons w ws ih =>
    intro cur hws hcur
    have hw : goodWord w := hws w (List.mem_cons_self w ws)
    have hws' : ∀ u ∈ ws, goodWord u := fun u hu => hws u (List.mem_cons_of_mem w hu)
    have hcur' : ∀ u ∈ cur ++ [w], goodWord u := by
      intro u hu
      rcases List.mem_append.mp hu with h | h
      · exact hcur u h
      · rw [List.mem_singleton.mp h]
        exact hw
    have hsingle : ∀ u ∈ [w], goodWord u := by
      intro u hu
      rw [List.mem_singleton.mp hu]
      exact hw
    simp only [wrapAux, greedyWrap]
    rw [strip_test_eq cur w hcur hw]
    by_cases hcond : (width (joinSp (cur ++ [w])) : ℤ) ≤ max_w - pad * 2
    · rw [if_pos hcond, if_pos hcond]
      exact ih (cur ++ [w]) hws' hcur'
    · rw [if_neg hcond, if_neg hcond]
      by_cases h0 : cur = []
      · rw [if_pos (by rw [h0]; rfl : joinSp cur = []), if_pos h0]
        exact ih [w] hws' hsingle
      · rw [if_neg (fun hh => h0 ((joinSp_eq_nil_iff cur hcur).mp hh)),
          if_neg h0, List.map_cons]
        exact congrArg (fun l => joinSp cur :: l) (ih [w] hws' hsingle)

lemma greedy_stays_alone (width : Str → ℕ) (limit : ℤ)
    (hmono : ∀ (ws : List Str) (w : Str), w ∈ ws → width w ≤ width (joinSp ws))
    (w : Str) (hover : limit < (width w : ℤ)) :
    ∀ ws, [w] ∈ greedyWrap width limit ws [w] := by
  intro ws
  induction ws with
  | nil => simp [greedyWrap]
  | cons v ws ih =>
    simp only [greedyWrap]
    have hno : ¬ ((width (joinSp ([w] ++ [v])) : ℤ) ≤ limit) := by
      intro hle
      have h1 : width w ≤ width (joinSp ([w] ++ [v])) :=
        hmono ([w] ++ [v]) w (by simp)
      have h2 : (width w : ℤ) ≤ (width (joinSp ([w] ++ [v])) : ℤ) :=
        Int.ofNat_le.mpr h1
      exact absurd hle (not_le.mpr (lt_of_lt_of_le hover h2))
    rw [if_neg hno, if_neg (by simp : ¬([w] = ([] : List Str)))]
    exact List.mem_cons_self _ _

lemma greedy_overwide_mem (width : Str → ℕ) (limit : ℤ)
    (hmono : ∀ (ws : List Str) (w : Str), w ∈ ws → width w ≤ width (joinSp ws)) :
    ∀ (ws curLine : List Str) (w : Str), w ∈ ws →
      limit < (width w : ℤ) → [w] ∈ greedyWrap width limit ws curLine := by
  intro ws
  induction ws with
  | nil => intro curLine w h _; exact absurd h (List.not_mem_nil w)
  | cons v ws ih =>
    intro curLine w hmem hover
    simp only [greedyWrap]
    rcases List.mem_cons.mp hmem with rfl | htail
    · have hno : ¬ ((width (joinSp (curLine ++ [w])) : ℤ) ≤ limit) := by
        intro hle
        have h1 : width w ≤ width (joinSp (curLine ++ [w])) :=
          hmono (curLine ++ [w]) w (by simp)
        have h2 : (width w : ℤ) ≤ (width (joinSp (curLine ++ [w])) : ℤ) :=
          Int.ofNat_le.mpr h1
        exact absurd hle (not_le.mpr (lt_of_lt_of_le hover h2))
      rw [if_neg hno]
      by_cases h0 : curLine = []
      · rw [if_pos h0]
        exact greedy_stays_alone width limit hmono w hover ws
      · rw [if_neg h0]
        exact List.mem_cons_of_mem _ (greedy_stays_alone width limit hmono w hover ws)
    · by_cases hcond : (width (joinSp (curLine ++ [v])) : ℤ) ≤ limit
      · rw [if_pos hcond]
        exact ih (curLine ++ [v]) w htail hover
      · rw [if_neg hcond]
        by_cases h0 : curLine = []
        · rw [if_pos h0]
          exact ih [v] w htail hover
        · rw [if_neg h0]
          exact List.mem_cons_of_mem _ (ih [v] w htail hover)

lemma len_le_joinSp :
    ∀ (ws : List Str) (w : Str), w ∈ ws → w.length ≤ (joinSp ws).length := by
  intro ws
  induction ws with
  | nil => intro w h; exact absurd h (List.not_mem_nil w)
  | cons u tail ih =>
    intro w hmem
    rcases List.mem_cons.mp hmem with rfl | htail
    · cases tail with
      | nil => exact le_refl _
      | cons x ts =>
        show w.length ≤ (w ++ ' ' :: joinSp (x :: ts)).length
        simp
    · cases tail with
      | nil => exact absurd htail (List.not_mem_nil w)
      | cons x ts =>
        calc w.length ≤ (joinSp (x :: ts)).length := ih w htail
          _ ≤ (u ++ ' ' :: joinSp (x :: ts)).length := by
            simp
            omega

/-! ## Claim theorems -/

/-- C4: the entrance-motion easing function satisfies `progress(0) = 0`,
`progress(0.6) = 1`, `progress` is non-decreasing on `[0, 0.6]`, and
`progress(t) = 1` for every `t ≥ 0.6`. -/
theorem ease_out_cubic_spec :
    ease_out_cubic 0 = 0 ∧ ease_out_cubic (3/5) = 1
    ∧ (∀ s t : ℚ, 0 ≤ s → s ≤ t → t ≤ 3/5 →
        ease_out_cubic s ≤ ease_out_cubic t)
    ∧ (∀ t : ℚ, 3/5 ≤ t → ease_out_cubic t = 1) := by
  refine ⟨by norm_num [ease_out_cubic], by norm_num [ease_out_cubic], ?_, ?_⟩
  · intro s t _hs hst ht
    unfold ease_out_cubic
    split_ifs with h1 h2 h2
    · exact le_refl 1
    · exact absurd (le_trans h1 hst) h2
    · have hp : s / (3/5) - 1 ≤ 0 := by
        have : s / (3/5) ≤ 1 := by
          rw [div_le_one (by norm_num : (0:ℚ) < 3/5)]
          exact le_trans hst ht
        linarith
      nlinarith [mul_self_nonneg (s / (3/5) - 1)]
    · have hdiv : s / (3/5) ≤ t / (3/5) :=
        div_le_div_of_nonneg_right hst (by norm_num) |>.trans_eq rfl
      have hps : s / (3/5) - 1 ≤ t / (3/5) - 1 := by linarith
      have hpt : t / (3/5) - 1 ≤ 0 := by
        have : t / (3/5) ≤ 1 := by
          rw [div_le_one (by norm_num : (0:ℚ) < 3/5)]
          exact ht
        linarith
      nlinarith [sq_nonneg (s / (3/5) - 1 + (t / (3/5) - 1)),
        sq_nonneg (s / (3/5) - 1 - (t / (3/5) - 1)),
        sq_nonneg (s / (3/5) - 1), sq_nonneg (t / (3/5) - 1)]
  · intro t ht
    unfold ease_out_cubic
    exact if_pos ht

/-- Witness for C4 at concrete times 0, 1/5 ≤ 2/5, and 1. -/
theorem ease_out_cubic_spec_witness :
    ease_out_cubic 0 = 0 ∧ ease_out_cubic (1/5) ≤ ease_out_cubic (2/5)
    ∧ ease_out_cubic 1 = 1 :=
  ⟨ease_out_cubic_spec.1,
   ease_out_cubic_spec.2.2.1 (1/5) (2/5) (by norm_num) (by norm_num) (by norm_num),
   ease_out_cubic_spec.2.2.2 1 (by norm_num)⟩

/-- C2 counterexample: at `frame_width = 1000`, `panel_split_ratio = 7/16`
the rendered panel width is `int(437.5) = 437`, not `round(437.5) = 438`. -/
theorem panel_width_truncates_not_rounds :
    (render_text_panel wlen (str "T") [] cfg2).panel_w
      ≠ round ((1000 : ℚ) * (7/16)) := by
  have hL : (render_text_panel wlen (str "T") [] cfg2).panel_w = 437 := by
    show pyInt ((cfg2.frame_width : ℚ) * cfg2.left_panel_frac) = 437
    rw [pyInt_eq_floor _ (by norm_num [cfg2, cfg1])]
    norm_num [cfg2, cfg1]
  have hR : round ((1000 : ℚ) * (7/16)) = 438 := by norm_num [round_eq]
  rw [hL, hR]
  decide

/-- C2 amended: the rendered text panel's width equals `⌊W * r⌋`
(Python `int` truncation) rather than `round(W * r)`; its height equals
the frame height; and the product image's available width equals
`W - panel_width - 2 * safe_area_inset`. -/
theorem panel_geometry (width : Str → ℕ) (title : Str) (bullets : List Str)
    (cfg : Cfg) (decoded : Option Img) (img_name : Str) (logo : Option (ℕ × ℕ))
    (hr : 0 ≤ cfg.left_panel_frac) :
    (render_text_panel width title bullets cfg).panel_w
        = ⌊(cfg.frame_width : ℚ) * cfg.left_panel_frac⌋
    ∧ (render_text_panel width title bullets cfg).panel_h = cfg.frame_height
    ∧ (build_slide_clip width decoded img_name title bullets cfg logo).avail_w
        = (cfg.frame_width : ℤ) - (render_text_panel width title bullets cfg).panel_w
            - 2 * cfg.safe_area_inset_px := by
  refine ⟨?_, rfl, ?_⟩
  · exact pyInt_eq_floor _ (mul_nonneg (Nat.cast_nonneg _) hr)
  · show (cfg.frame_width : ℤ) - (render_text_panel width title bullets cfg).panel_w
        - cfg.safe_area_inset_px * 2
      = (cfg.frame_width : ℤ) - (render_text_panel width title bullets cfg).panel_w
        - 2 * cfg.safe_area_inset_px
    ring

/-- Witness for C2's amended theorem at the default 1920x960, ratio-1/2
configuration. -/
theorem panel_geometry_witness :
    (render_text_panel wlen (str "Widget") [] cfg1).panel_w
        = ⌊(cfg1.frame_width : ℚ) * cfg1.left_panel_frac⌋
    ∧ (render_text_panel wlen (str "Widget") [] cfg1).panel_h = cfg1.frame_height :=
  have h := panel_geometry wlen (str "Widget") [] cfg1 (some img0)
    (str "widget.png") (some (300, 100)) (by norm_num [cfg1])
  ⟨h.1, h.2.1⟩

/-- C3: evaluated at a 600x200 logo on a 1920-wide frame with
`logo_position = "top_left"`, the logo layer actually composited into the
slide (lines 287-289) keeps the original 600px width — above the 18% cap
`int(1920*0.18) = 345` — and sits at the hardcoded top-right corner,
while the scaling/corner logic of `paste_logo` (which would produce a
345px-wide logo within the cap) is applied only to an intermediate image
that is discarded. -/
theorem logo_overlay_not_scaled :
    (build_slide_clip wlen (some img0) (str "a.png") (str "T") [] cfg3
        (some (600, 200))).logo_overlay
      = some { w := 600, h := 200, x := 1920 - 600 - 28, y := 28 }
    ∧ ¬ ((600 : ℤ) ≤ pyInt ((1920 : ℚ) * (9/50)))
    ∧ (paste_logo 1920 960 600 200 28 (str "top_right")).w = 345
    ∧ (paste_logo 1920 960 600 200 28 (str "top_right")).w
        ≤ pyInt ((1920 : ℚ) * (9/50)) := by
  have hcap : pyInt ((1920 : ℚ) * (9/50)) = 345 := by
    rw [pyInt_eq_floor _ (by norm_num)]
    norm_num
  have hscale : min (1 : ℚ) ((1920 : ℚ) * (9/50) / 600) = 72/125 := by norm_num
  have hpaste : (paste_logo 1920 960 600 200 28 (str "top_right")).w = 345 := by
    show (if min (1 : ℚ) (((1920 : ℕ) : ℚ) * (9/50) / ((600 : ℕ) : ℚ)) = 1
        then ((600 : ℕ) : ℤ)
        else pyInt (((600 : ℕ) : ℚ) * min 1 (((1920 : ℕ) : ℚ) * (9/50) / ((600 : ℕ) : ℚ)))) = 345
    rw [show (((1920 : ℕ) : ℚ)) = (1920 : ℚ) by norm_num,
      show (((600 : ℕ) : ℚ)) = (600 : ℚ) by norm_num, hscale,
      if_neg (by norm_num : ¬ (72/125 : ℚ) = 1)]
    rw [pyInt_eq_floor _ (by norm_num)]
    norm_num
  refine ⟨by decide, ?_, hpaste, ?_⟩
  · rw [hcap]; decide
  · rw [hcap, hpaste]

/-- C7: if zero rows survive filtering, the run fails with the
"No slides to render" diagnostic and exit code 1, producing no output. -/
theorem no_slides_is_fatal (width : Str → ℕ) (cfg : Cfg) (rows : List Row)
    (decode : Str → Option Img) (logo : Option (ℕ × ℕ)) (music : Option ℚ)
    (h : select_rows cfg rows 0 = []) :
    main_run width cfg rows decode logo music
      = .error (str "No slides to render. Check your Excel and image paths.", 1) := by
  simp [main_run, h]

/-- Witness for C7: a run whose only row is skip-flagged exits with
code 1 and the "No slides to render" message. -/
theorem no_slides_is_fatal_witness :
    main_run wlen cfg1 [row_skip] dec1 (some (300, 100)) none
      = .error (str "No slides to render. Check your Excel and image paths.", 1) :=
  no_slides_is_fatal wlen cfg1 [row_skip] dec1 (some (300, 100)) none (by decide)

/-- C8: a music track shorter than the video is looped by whole-track
concatenation `ceil(video/audio)` times (which meets or exceeds the video
duration), trimmed to exactly the video duration, and attenuated by a 0.9
linear gain; a run with no track attached has no audio. -/
theorem music_looped_and_trimmed :
    (∀ a v : ℚ, 0 < a → a < v →
      (attach_music a v).loops = (⌈v / a⌉).toNat
      ∧ v ≤ (attach_music a v).looped_duration
      ∧ (attach_music a v).duration = v
      ∧ (attach_music a v).volume = 9/10)
    ∧ (∀ (width : Str → ℕ) (cfg : Cfg) (rows : List Row)
        (decode : Str → Option Img) (logo : Option (ℕ × ℕ)) (out : RunOutput),
        main_run width cfg rows decode logo none = .ok out → out.music = none) := by
  constructor
  · intro a v ha hav
    unfold attach_music
    rw [if_pos hav]
    refine ⟨rfl, ?_, rfl, rfl⟩
    have h1 : v / a ≤ ((⌈v / a⌉ : ℤ) : ℚ) := Int.le_ceil _
    calc v = v / a * a := by field_simp
      _ ≤ ((⌈v / a⌉ : ℤ) : ℚ) * a := mul_le_mul_of_nonneg_right h1 ha.le
  · intro width cfg rows decode logo out hout
    by_cases h : select_rows cfg rows 0 = []
    · simp [main_run, h] at hout
    · simp only [main_run, if_neg h] at hout
      injection hout with h2
      rw [← h2]
      rfl

/-- Witness for C8 at a 10-second track under a 25-second video: three
loops, 30 seconds of looped audio, trimmed to exactly 25 seconds. -/
theorem music_looped_and_trimmed_witness :
    (attach_music 10 25).loops = 3
    ∧ (25 : ℚ) ≤ (attach_music 10 25).looped_duration
    ∧ (attach_music 10 25).duration = 25
    ∧ (attach_music 10 25).volume = 9/10 :=
  have h := music_looped_and_trimmed.1 10 25 (by norm_num) (by norm_num)
  have hc : (⌈(25 : ℚ) / 10⌉).toNat = 3 := by
    rw [show ⌈(25 : ℚ) / 10⌉ = 3 by rw [Int.ceil_eq_iff]; norm_num]
    rfl
  ⟨h.1.trans hc, h.2.1, h.2.2.1, h.2.2.2⟩

/-- C10: rows are excluded as skipped exactly when the trimmed,
lowercased skip field is one of `"1"`, `"true"`, `"yes"`, `"y"`; a
non-truthy flag leaves the row eligible, and such a row with a valid
image reference is selected. -/
theorem skip_flag_rows (cfg : Cfg) (row : Row) (rest : List Row) (count : ℕ)
    (hcount : count < cfg.max_slides) :
    (is_skip_flag row.skip = true ↔
        pyLower (pyStrip row.skip) ∈ [str "1", str "true", str "yes", str "y"])
    ∧ (is_skip_flag row.skip = true →
        select_rows cfg (row :: rest) count = select_rows cfg rest count)
    ∧ (is_skip_flag row.skip = false → pyStrip row.image_filename ≠ [] →
        has_barcode_keyword cfg.barcode_filename_keywords
            (pyLower (pyStrip row.image_filename)) = false →
        select_rows cfg (row :: rest) count
          = row :: select_rows cfg rest (count + 1)) := by
  refine ⟨by simp [is_skip_flag], ?_, ?_⟩
  · intro hskip
    simp only [select_rows]
    rw [if_neg (not_le.mpr hcount), if_pos hskip]
  · intro hskip himg hbar
    simp only [select_rows]
    rw [if_neg (not_le.mpr hcount), if_neg (by simp [hskip]),
      if_neg himg, if_neg (by simp [hbar])]

/-- Witness for C10: a `" YES "` flag (trimmed, lowercased to `"yes"`)
excludes its row; an empty flag (absent field) leaves the row eligible
and it is selected. -/
theorem skip_flag_rows_witness :
    select_rows cfg1 (row_skip :: [row_a]) 0 = select_rows cfg1 [row_a] 0
    ∧ select_rows cfg1 (row_a :: []) 0 = row_a :: select_rows cfg1 [] 1 :=
  ⟨(skip_flag_rows cfg1 row_skip [row_a] 0 (by norm_num [cfg1])).2.1 (by decide),
   (skip_flag_rows cfg1 row_a [] 0 (by norm_num [cfg1])).2.2
     (by decide) (by decide) (by decide)⟩

/-- C9: an undecodable source image is replaced by a neutral-gray 800x800
placeholder whose label contains the file name, and a run with at least
one surviving row still succeeds regardless of which images decode. -/
theorem missing_image_uses_placeholder :
    (∀ name : Str,
      load_product_image none name
        = { w := 800, h := 800, fill := (230, 230, 230, 255)
            label := some (str "Missing image:\n" ++ name) }
      ∧ containsSeq name ((load_product_image none name).label.getD []) = true)
    ∧ (∀ (width : Str → ℕ) (cfg : Cfg) (rows : List Row)
        (decode : Str → Option Img) (logo : Option (ℕ × ℕ)) (music : Option ℚ),
        select_rows cfg rows 0 ≠ [] →
        ∃ out, main_run width cfg rows decode logo music = .ok out) := by
  constructor
  · intro name
    exact ⟨rfl, containsSeq_append_self (str "Missing image:\n") name⟩
  · intro width cfg rows decode logo music h
    simp only [main_run, if_neg h]
    exact ⟨_, rfl⟩

/-- Witness for C9: a run on one valid row whose image fails to decode
still succeeds. -/
theorem missing_image_uses_placeholder_witness :
    ∃ out, main_run wlen cfg1 [row_a] (fun _ => none) (some (300, 100)) none
      = .ok out :=
  missing_image_uses_placeholder.2 wlen cfg1 [row_a] (fun _ => none)
    (some (300, 100)) none (by decide)

/-- C1: evaluated on two surviving rows with `duration_per_slide = 5`,
the assembled timeline layers both slides over the span `[0, 5)` (every
clip is composited with its default start time 0) while the total
duration is set to `5 * 2 = 10`; the second slide does not occupy
`[1*5, 2*5)` as concatenation would give. -/
theorem timeline_layers_slides_at_zero :
    ((main_run wlen cfg1 [row_a, row_b] dec1 (some (300, 100)) none).map
        fun o => (o.timeline.slide_spans, o.timeline.total_duration))
      = .ok ([((0 : ℚ), 5), ((0 : ℚ), 5)], 10)
    ∧ (10 : ℚ) = cfg1.duration_per_slide * 2
    ∧ ((0 : ℚ), (5 : ℚ)) ≠ ((1 * 5 : ℚ), (2 * 5 : ℚ)) := by
  have hsel : select_rows cfg1 [row_a, row_b] 0 = [row_a, row_b] := by decide
  refine ⟨?_, by norm_num [cfg1], by norm_num⟩
  simp only [main_run, hsel,
    if_neg (by decide : ¬([row_a, row_b] = ([] : List Row))),
    Except.map, composite_timeline, List.map_cons, List.map_nil,
    List.length_cons, List.length_nil]
  norm_num [build_slide_clip, cfg1]

/-- C6: for every string and every `max_words = k`, the clamped result
has at most `k` whitespace-delimited tokens, and clamping it again with
the same `k` returns it unchanged. -/
theorem clamp_words_bounded_and_idempotent (s : Str) (k : ℕ) :
    (pysplit (clamp_words s k)).length ≤ k
    ∧ clamp_words (clamp_words s k) k = clamp_words s k := by
  have hgood : ∀ w ∈ (pysplit s).take k, goodWord w :=
    fun w hw => pysplit_good s w (List.take_subset _ _ hw)
  have hsplit : pysplit (clamp_words s k) = (pysplit s).take k :=
    pysplit_joinSp _ hgood
  constructor
  · rw [hsplit, List.length_take]
    exact min_le_left _ _
  · show joinSp ((pysplit (clamp_words s k)).take k) = clamp_words s k
    rw [hsplit, List.take_take, min_self]
    rfl

/-- Witness for C6 at a concrete four-word string clamped to two words. -/
theorem clamp_words_bounded_and_idempotent_witness :
    (pysplit (clamp_words (str "alpha beta gamma delta") 2)).length ≤ 2
    ∧ clamp_words (clamp_words (str "alpha beta gamma delta") 2) 2
        = clamp_words (str "alpha beta gamma delta") 2 :=
  clamp_words_bounded_and_idempotent (str "alpha beta gamma delta") 2

/-- C5 counterexample: on a 12-pixel panel with 1-pixel edge padding and
a character-count width function, the renderer breaks `"abcde efg"` into
two lines even though the extended line's rendered width 9 stays within
`panel_width - 2*edge_padding = 10`: `wrap_text` subtracts `2*pad` again
from its already-padded `max_w` argument, so its effective threshold is
8. -/
theorem wrap_threshold_counterexample :
    (render_text_panel wlen (str "abcde efg") [] cfgWrap).title_lines
        = [str "abcde", str "efg"]
    ∧ greedyWrapLines wlen
          ((render_text_panel wlen (str "abcde efg") [] cfgWrap).panel_w
            - 2 * cfgWrap.edge_padding_px) (str "abcde efg")
        = [str "abcde efg"]
    ∧ ¬ ([str "abcde", str "efg"] = [str "abcde efg"]) := by
  have hpww : pyInt ((cfgWrap.frame_width : ℚ) * cfgWrap.left_panel_frac) = 12 := by
    rw [pyInt_eq_floor _ (by norm_num [cfgWrap, cfg1])]
    norm_num [cfgWrap, cfg1]
  have hpw : (render_text_panel wlen (str "abcde efg") [] cfgWrap).panel_w = 12 := by
    show pyInt ((cfgWrap.frame_width : ℚ) * cfgWrap.left_panel_frac) = 12
    exact hpww
  refine ⟨?_, ?_, by decide⟩
  · show wrap_text wlen
        (apply_title_case (str "abcde efg") cfgWrap.title_case_style)
        (pyInt ((cfgWrap.frame_width : ℚ) * cfgWrap.left_panel_frac)
          - 2 * cfgWrap.edge_padding_px)
        cfgWrap.edge_padding_px
      = [str "abcde", str "efg"]
    rw [hpww]
    decide
  · rw [hpw]
    decide

/-- C5 amended: `wrap_text` is exactly the greedy line-fill of the spec
over the input's whitespace-delimited words, except that a word is
appended when the extended line's rendered width stays within
`max_w - 2*edge_padding` — the renderer already passes
`max_w = panel_width - 2*edge_padding`, so the effective threshold is
`panel_width - 4*edge_padding`; for any width function under which a
word is never wider than a line containing it, a single word wider than
the threshold still becomes its own output line, and wrapping (a
structural recursion) terminates for every input. -/
theorem wrap_text_greedy_amended (width : Str → ℕ) (txt : Str)
    (max_w : ℤ) (pad : ℕ)
    (hmono : ∀ (ws : List Str) (w : Str), w ∈ ws → width w ≤ width (joinSp ws)) :
    wrap_text width txt max_w pad
        = (greedyWrap width (max_w - pad * 2) (pysplit txt) []).map joinSp
    ∧ ∀ w ∈ pysplit txt, max_w - pad * 2 < (width w : ℤ) →
        w ∈ wrap_text width txt max_w pad := by
  have heq : wrap_text width txt max_w pad
      = (greedyWrap width (max_w - pad * 2) (pysplit txt) []).map joinSp := by
    have h := wrapAux_eq_greedy width max_w pad (pysplit txt) []
      (pysplit_good txt) (by simp)
    rw [show joinSp ([] : List Str) = [] from rfl] at h
    exact h
  refine ⟨heq, ?_⟩
  intro w hw hover
  rw [heq]
  exact List.mem_map.mpr
    ⟨[w], greedy_overwide_mem width (max_w - pad * 2) hmono (pysplit txt) [] w hw hover,
      rfl⟩

/-- Witness for C5's amended theorem, with a character-count width
function (under which no word is wider than a line containing it). -/
theorem wrap_text_greedy_amended_witness :
    wrap_text wlen (str "banana mango kiwi") 16 1
        = (greedyWrap wlen (16 - 1 * 2) (pysplit (str "banana mango kiwi")) []).map joinSp
    ∧ str "banana" ∈ wrap_text wlen (str "banana mango kiwi") 5 0 :=
  ⟨(wrap_text_greedy_amended wlen (str "banana mango kiwi") 16 1 len_le_joinSp).1,
   (wrap_text_greedy_amended wlen (str "banana mango kiwi") 5 0 len_le_joinSp).2
     (str "banana") (by decide) (by decide)⟩

end VideoMaker
